import Mathlib

/-!
Verification of the outline-extraction pipeline of the `tilth` repository
(`src/read/outline/code.rs`).  The Rust code is shallowly embedded: strings
are processed as `List Char`, tree-sitter syntax trees become the `Node`
type below, and the outline data model (`OutlineKind`, `OutlineEntry`) is
embedded verbatim.  All embedded functions keep the names of the Rust
functions they translate.  Rust byte lengths and byte slicing are modelled
with character counts (all behaviours under scrutiny are ASCII-level).
-/

set_option maxRecDepth 4096

namespace Tilth

/-! ### Character-list helpers (models of Rust `str` primitives) -/

/-- Model of Rust `char::is_whitespace` restricted to the ASCII whitespace
characters handled by Lean's `Char.isWhitespace` (space, tab, CR, LF). -/
def isWs (c : Char) : Bool := c.isWhitespace

/-- Model of Rust `str::trim`: drop whitespace from both ends. -/
def trimChars (s : List Char) : List Char :=
  ((s.dropWhile isWs).reverse.dropWhile isWs).reverse

/-- Model of Rust `str::strip_prefix`: `some rest` when `p` is a prefix. -/
def stripPrefixChars : List Char → List Char → Option (List Char)
  | [], s => some s
  | _ :: _, [] => none
  | p :: ps, c :: cs => if p = c then stripPrefixChars ps cs else none

/-- Model of Rust `str::starts_with`. -/
def isPrefixOfChars (p s : List Char) : Bool :=
  (stripPrefixChars p s).isSome

/-- The suffix of `hay` after the first occurrence of `needle`
(model of slicing at `str::find(needle) + needle.len()`). -/
def afterFirstSub (needle : List Char) : List Char → Option (List Char)
  | [] => stripPrefixChars needle []
  | c :: t =>
    match stripPrefixChars needle (c :: t) with
    | some rest => some rest
    | none => afterFirstSub needle t

/-- Model of Rust `str::contains` for substring needles. -/
def containsSub (needle hay : List Char) : Bool :=
  (afterFirstSub needle hay).isSome

/-- Model of Rust `str::ends_with`. -/
def isSuffixOfChars (p s : List Char) : Bool :=
  isPrefixOfChars p.reverse s.reverse

/-- Model of Rust `str::trim_end_matches(';')`: strips every trailing `;`. -/
def trimEndSemis (s : List Char) : List Char :=
  (s.reverse.dropWhile (fun c => c = ';')).reverse

/-- Helper for `trim_end_matches("::")`: drops repeated leading `::` pairs
(applied to the reversed string). -/
def dropColonPairs : List Char → List Char
  | ':' :: ':' :: rest => dropColonPairs rest
  | s => s

/-- Model of Rust `str::trim_end_matches("::")`: strips repeated `::` suffixes. -/
def trimEndColons (s : List Char) : List Char :=
  (dropColonPairs s.reverse).reverse

/-- Model of Rust `str::split('{').next()`: the prefix before the first
opening brace (the whole string when there is none). -/
def takeBeforeBrace (s : List Char) : List Char :=
  s.takeWhile (fun c => c ≠ '\x7b')

/-- Model of Rust `str::split_whitespace().next()`. -/
def firstTokenOpt (s : List Char) : Option (List Char) :=
  let t := s.dropWhile isWs
  if t.isEmpty then none else some (t.takeWhile (fun c => !isWs c))

/-- `split_whitespace().next().unwrap_or("")`. -/
def firstTokenD (s : List Char) : List Char :=
  (firstTokenOpt s).getD []

/-- Model of Rust `str::split_whitespace().last()`. -/
def lastTokenOpt (s : List Char) : Option (List Char) :=
  let r := s.reverse.dropWhile isWs
  if r.isEmpty then none else some ((r.takeWhile (fun c => !isWs c)).reverse)

/-- Model of Rust `str::trim_matches(|c| c == '"' || c == '\'' || c == ';')`:
strips those characters from both ends. -/
def trimMatchesQSemi (s : List Char) : List Char :=
  let p := fun c => c = '"' ∨ c = '\'' ∨ c = ';'
  ((s.dropWhile (fun c => decide (p c))).reverse.dropWhile
    (fun c => decide (p c))).reverse

/-- Split a character list on a separator (model of Rust `str::split(sep)`:
always at least one segment, empty segments preserved). -/
def splitOnChar (sep : Char) (s : List Char) : List (List Char) :=
  s.foldr
    (fun c acc =>
      match acc with
      | h :: t => if c = sep then [] :: h :: t else (c :: h) :: t
      | [] => [[c]])
    [[]]

/-! ### `extract_import_source` (code.rs lines 618-686) -/

/-- Core of `extract_import_source`, on character lists.  A direct
translation of the Rust function body; the comments reproduce the rule
structure of the source. -/
def extractImportSourceChars (text : List Char) : List Char :=
  let trimmed := trimEndSemis (trimChars text)
  -- Rust: `use foo::bar` → `foo::bar`
  match stripPrefixChars "use ".data trimmed with
  | some rest => trimEndColons (trimChars (takeBeforeBrace rest))
  | none =>
  -- ReScript: `open Module` → `Module`
  match stripPrefixChars "open ".data trimmed with
  | some rest => firstTokenD rest
  | none =>
  -- Python: `from module import ...`
  match stripPrefixChars "from ".data trimmed with
  | some rest => firstTokenD rest
  | none =>
  -- Haskell: `import [qualified] Module [as Alias]`; falls through to the
  -- JS/TS rule when the module token is not uppercase or ` from ` occurs.
  let haskell : Option (List Char) :=
    match stripPrefixChars "import ".data trimmed with
    | none => none
    | some rest =>
      if containsSub " from ".data trimmed ∨ containsSub " from\"".data trimmed then
        none
      else
        let rest := (stripPrefixChars "qualified ".data rest).getD rest
        match firstTokenOpt rest with
        | some module_ =>
          if (module_.head?.map Char.isUpper).getD false then some module_ else none
        | none => none
  match haskell with
  | some m => m
  | none =>
  -- JS/TS: `import ... from "source"` or `import "source"`
  if isPrefixOfChars "import".data trimmed then
    match afterFirstSub "from ".data trimmed with
    | some source => trimMatchesQSemi (trimChars source)
    | none =>
      let after := (stripPrefixChars "import ".data trimmed).getD []
      trimMatchesQSemi (trimChars after)
  else
  -- Generic Python-style `import module` (unreachable after the branch above,
  -- kept to mirror the source)
  match stripPrefixChars "import ".data trimmed with
  | some rest => firstTokenD rest
  | none =>
  -- C/C++: #include "file.h" or #include <header>
  match stripPrefixChars "#include".data trimmed with
  | some rest => trimChars rest
  | none =>
  -- Fallback: last whitespace-delimited token
  (lastTokenOpt trimmed).getD trimmed

/-- `extract_import_source` (code.rs line 618): extract the source module
name from an import statement's raw text. -/
def extract_import_source (text : String) : String :=
  ⟨extractImportSourceChars text.data⟩

/-! ### Data model (`crate::types`) -/

/-- The language tag enumeration (`Lang` in `crate::types`; the variants are
those matched in `outline_language`, code.rs lines 46-66). -/
inductive Lang where
  | rust | typeScript | tsx | javaScript | python | go | java | c | cpp
  | ruby | haskell | reScript | swift | kotlin | cSharp | dockerfile | make
deriving DecidableEq

/-- The normalized outline kinds (`OutlineKind` in `crate::types`). -/
inductive OutlineKind where
  | Function
  | Method
  | Class
  | Struct
  | Interface
  | TypeAlias
  | Enum
  | Constant
  | Variable
  | Export
  | Property
  | Module
  | Import
  | TestSuite
  | TestCase
deriving DecidableEq

/-- A normalized outline entry (`OutlineEntry` in `crate::types`): kind,
name, 1-based inclusive line span, optional signature, children, optional
doc comment. -/
inductive OutlineEntry where
  | mk (kind : OutlineKind) (name : String) (start_line end_line : Nat)
      (signature : Option String) (children : List OutlineEntry)
      (doc : Option String)

def OutlineEntry.kind : OutlineEntry → OutlineKind
  | .mk k _ _ _ _ _ _ => k

def OutlineEntry.name : OutlineEntry → String
  | .mk _ n _ _ _ _ _ => n

def OutlineEntry.start_line : OutlineEntry → Nat
  | .mk _ _ s _ _ _ _ => s

def OutlineEntry.end_line : OutlineEntry → Nat
  | .mk _ _ _ e _ _ _ => e

def OutlineEntry.signature : OutlineEntry → Option String
  | .mk _ _ _ _ sg _ _ => sg

def OutlineEntry.children : OutlineEntry → List OutlineEntry
  | .mk _ _ _ _ _ cs _ => cs

def OutlineEntry.doc : OutlineEntry → Option String
  | .mk _ _ _ _ _ _ d => d

/-! ### Syntax-tree embedding

A tree-sitter node is embedded as its kind string, the field name it is
attached under in its parent (for `child_by_field_name`), its start/end
positions (0-based row and column, as in tree-sitter), and its child list
(named and anonymous children, in document order, as iterated by
`node.children(&mut cursor)`). -/

inductive Node where
  | mk (kind : String) (fieldName : Option String) (srow scol erow ecol : Nat)
      (children : List Node)

def Node.kind : Node → String
  | .mk k _ _ _ _ _ _ => k

def Node.fieldName : Node → Option String
  | .mk _ f _ _ _ _ _ => f

def Node.srow : Node → Nat
  | .mk _ _ r _ _ _ _ => r

def Node.scol : Node → Nat
  | .mk _ _ _ c _ _ _ => c

def Node.erow : Node → Nat
  | .mk _ _ _ _ r _ _ => r

def Node.ecol : Node → Nat
  | .mk _ _ _ _ _ c _ => c

def Node.children : Node → List Node
  | .mk _ _ _ _ _ _ cs => cs

/-- tree-sitter `node.child_by_field_name(field)`: the first child attached
under the given field name. -/
def child_by_field_name (node : Node) (field : String) : Option Node :=
  node.children.find? (fun c => c.fieldName == some field)

/-- Each child of a node paired with its immediately preceding sibling
(models tree-sitter `prev_sibling` during child iteration). -/
def withPrev (children : List Node) : List (Node × Option Node) :=
  children.zip (none :: children.map some)

/-- `truncate_str` from `crate::types`.
Modelled from the spec: `crate::types` is not under `src/`; per the spec's
data model (§3, "at most 120 chars with ellipsis", "at most 60 chars for
display") it truncates a string to at most the given number of characters. -/
def truncate_str (s : String) (maxChars : Nat) : String :=
  ⟨s.data.take maxChars⟩

/-- `node_text` (code.rs line 465): the text of a node, truncated to the
first line.  Rust byte indices are modelled as character indices. -/
def node_text (node : Node) (lines : List String) : String :=
  let row := node.srow
  let col_start := node.scol
  let end_row := node.erow
  match lines[row]? with
  | some line =>
    if row = end_row then
      let col_end := min node.ecol line.length
      ⟨(line.data.drop col_start).take (col_end - col_start)⟩
    else
      -- Multi-line — take first line only, truncated
      let text : List Char := line.data.drop col_start
      if text.length > 80 then truncate_str ⟨text⟩ 77 ++ "..." else ⟨text⟩
  | none => ""

/-- `find_child_text` (code.rs line 460): find a named child and return its
text. -/
def find_child_text (node : Node) (field : String) (lines : List String) :
    Option String :=
  (child_by_field_name node field).map (fun n => node_text n lines)

/-- `first_child_by_kind` (code.rs line 69): the text of the first child
with a specific node kind. -/
def first_child_by_kind (node : Node) (kind : String) (lines : List String) :
    Option String :=
  (node.children.find? (fun c => c.kind == kind)).map (fun c => node_text c lines)

/-- `rescript_binding_name` (code.rs line 81): extract the declared name
from ReScript declaration nodes, following the
`_declaration → _binding → name/pattern` nesting. -/
def rescript_binding_name (node : Node) (lines : List String) : Option String :=
  if node.kind = "let_declaration" then
    -- let_declaration → let_binding → pattern(value_identifier)
    (node.children.find? (fun c => c.kind == "let_binding")).bind (fun child =>
      (find_child_text child "pattern" lines).orElse
        (fun _ => find_child_text child "name" lines))
  else if node.kind = "type_declaration" then
    -- type_declaration → type_binding → name(type_identifier)
    (node.children.find? (fun c => c.kind == "type_binding")).bind (fun child =>
      find_child_text child "name" lines)
  else if node.kind = "module_declaration" then
    -- module_declaration → module_binding → name(module_identifier)
    (node.children.find? (fun c => c.kind == "module_binding")).bind (fun child =>
      find_child_text child "name" lines)
  else if node.kind = "external_declaration" then
    -- FLAT: direct child value_identifier
    first_child_by_kind node "value_identifier" lines
  else if node.kind = "exception_declaration" then
    -- FLAT: direct child variant_identifier
    first_child_by_kind node "variant_identifier" lines
  else if node.kind = "open_statement" then
    -- direct child module_identifier
    first_child_by_kind node "module_identifier" lines
  else none

/-- `rescript_let_is_function` (code.rs line 131): whether a ReScript
`let_binding` has a function body (arrow or function expression). -/
def rescript_let_is_function (node : Node) : Bool :=
  (node.children.findSome? (fun child =>
    if child.kind = "let_binding" then
      (child_by_field_name child "body").map (fun body =>
        body.kind == "function" || body.kind == "arrow_function")
    else none)).getD false

/-- `first_identifier_text` (code.rs line 489): the first identifier-like
child's text, recursing one level for `variable_declarator → identifier`. -/
def first_identifier_text (node : Node) (lines : List String) : Option String :=
  node.children.findSome? (fun child =>
    let kind := child.kind
    if containsSub "identifier".data kind.data ∨ containsSub "name".data kind.data ∨
        containsSub "declarator".data kind.data then
      let text := node_text child lines
      if text ≠ "" then some text
      else
        child.children.findSome? (fun grandchild =>
          if containsSub "identifier".data grandchild.kind.data then
            let t := node_text grandchild lines
            if t ≠ "" then some t else none
          else none)
    else none)

/-- Fuel-bounded repetition of `stripPrefixChars` — model of Rust
`str::trim_start_matches(pat)` for a non-empty pattern, which removes every
successive occurrence of the pattern prefix. -/
def trimStartAux (pat : List Char) : Nat → List Char → List Char
  | 0, s => s
  | fuel + 1, s =>
    match stripPrefixChars pat s with
    | some rest => trimStartAux pat fuel rest
    | none => s

/-- Model of Rust `str::trim_start_matches(pat)` for string patterns.  A
non-empty pattern strictly shrinks the string, so `s.length` steps of fuel
realize the unbounded Rust loop exactly. -/
def trimStartMatchesStr (pat s : List Char) : List Char :=
  match pat with
  | [] => s
  | p :: ps => trimStartAux (p :: ps) s.length s

/-- `extract_doc` (code.rs line 514): extract a doc comment from the
previous sibling.  The sibling is an explicit argument here because the
embedded nodes do not carry parent pointers. -/
def extract_doc (prev : Option Node) (lines : List String) : Option String :=
  match prev with
  | none => none
  | some prevNode =>
    let kind := prevNode.kind
    if containsSub "comment".data kind.data || containsSub "doc".data kind.data then
      let text := node_text prevNode lines
      let trimmed : List Char :=
        trimChars ((trimStartMatchesStr "/**".data
          (trimStartMatchesStr "//!".data
            (trimStartMatchesStr "///".data text.data))).dropWhile (fun c => c = '#'))
      if trimmed.isEmpty then none else some ⟨trimmed⟩
    else none

/-- `extract_signature` (code.rs line 434): the first source line of the
node, trimmed, with the body after `\x7b` or a trailing `:` stripped, and
long lines truncated with an ellipsis. -/
def extract_signature (node : Node) (lines : List String) : String :=
  match lines[node.srow]? with
  | some rawLine =>
    let line := trimChars rawLine.data
    -- Truncate at opening brace
    if line.contains '\x7b' then
      ⟨trimChars (takeBeforeBrace line)⟩
    else if line.getLast? = some ':' then
      -- Python — truncate at trailing colon; `rfind(':')` on a line that
      -- ends with ':' is its final index, so this drops the last character
      ⟨trimChars (line.take (line.length - 1))⟩
    else if line.length > 120 then
      -- Full first line, truncated
      truncate_str ⟨line⟩ 117 ++ "..."
    else ⟨line⟩
  | none => ""

/-! ### JSX subtree collector (code.rs lines 735-858) -/

/-- `jsx_identifier_text` (code.rs line 820): the identifier text of a JSX
element node, joining dotted tags (`nested_jsx_identifier`) with `.`. -/
def jsx_identifier_text (node : Node) (lines : List String) : String :=
  (node.children.findSome? (fun child =>
    if child.kind = "nested_jsx_identifier" then
      -- Dotted tag: Header.Nav -> collect all jsx_identifier children, join with "."
      some (String.intercalate "."
        ((child.children.filter (fun inner => inner.kind == "jsx_identifier")).map
          (fun inner => node_text inner lines)))
    else if child.kind = "jsx_identifier" then
      some (node_text child lines)
    else none)).getD "unknown"

/-- `jsx_tag_name` (code.rs line 804): the tag name of a `jsx_element`,
taken from its `jsx_opening_element` child. -/
def jsx_tag_name (node : Node) (lines : List String) : String :=
  ((node.children.find? (fun c => c.kind == "jsx_opening_element")).map
    (fun c => jsx_identifier_text c lines)).getD "unknown"

/-- `jsx_self_closing_tag` (code.rs line 815). -/
def jsx_self_closing_tag (node : Node) (lines : List String) : String :=
  jsx_identifier_text node lines

/-- `has_jsx_spread` (code.rs line 845): whether a JSX element has spread
props (an attribute subtree containing a `spread_element`). -/
def has_jsx_spread (node : Node) : Bool :=
  node.children.any (fun child =>
    child.kind == "jsx_expression" &&
      child.children.any (fun inner => inner.kind == "spread_element"))

mutual

/-- `collect_jsx_recursive` (code.rs line 743): recursive descent over the
node's children, emitting `Property` entries for JSX elements, fragments
and self-closing elements, and recursing through all other nodes. -/
def collect_jsx_recursive (node : Node) (lines : List String) :
    List OutlineEntry :=
  match node with
  | .mk _ _ _ _ _ _ children => jsxEntriesOfChildren children lines

/-- The loop body of `collect_jsx_recursive` over a child list. -/
def jsxEntriesOfChildren : List Node → List String → List OutlineEntry
  | [], _ => []
  | child :: rest, lines =>
    (if child.kind = "jsx_element" then
      -- Extract tag name from jsx_opening_element
      let tag := jsx_tag_name child lines
      [OutlineEntry.mk .Property ("<" ++ tag ++ ">") (child.srow + 1)
        (child.erow + 1) none (collect_jsx_recursive child lines) none]
    else if child.kind = "jsx_self_closing_element" then
      let tag := jsx_self_closing_tag child lines
      -- Check for spread props
      let name := if has_jsx_spread child then "<" ++ tag ++ " .../>"
        else "<" ++ tag ++ " />"
      [OutlineEntry.mk .Property name (child.srow + 1) (child.erow + 1)
        none [] none]
    else if child.kind = "jsx_fragment" then
      [OutlineEntry.mk .Property "<>...</>" (child.srow + 1) (child.erow + 1)
        none (collect_jsx_recursive child lines) none]
    else
      -- Recurse into non-JSX nodes looking for JSX
      collect_jsx_recursive child lines) ++ jsxEntriesOfChildren rest lines

end

/-- `collect_jsx_children` (code.rs line 737): collect JSX element children
from a ReScript component function by walking the whole function body. -/
def collect_jsx_children (node : Node) (lines : List String) :
    List OutlineEntry :=
  collect_jsx_recursive node lines

/-! ### Node→entry mapper (code.rs lines 170-431) -/

/-- The `(kind, name, signature)` match of `node_to_entry` (code.rs lines
180-362), written as an if-chain over the node kind string with the arms in
source order (the arms are mutually exclusive except for the guarded
`type_declaration` arm, so the chain is equivalent to the Rust `match`).
Returns `none` for the `_ => return None` arm. -/
def node_kind_triple (node : Node) (lines : List String) (lang : Lang) :
    Option (OutlineKind × String × Option String) :=
  let ks := node.kind
  -- Functions
  if ks = "function_declaration" ∨ ks = "function_definition" ∨
      ks = "function_item" ∨ ks = "method_definition" ∨
      ks = "method_declaration" then
    let name := ((find_child_text node "name" lines).orElse
      (fun _ => find_child_text node "identifier" lines)).getD "<anonymous>"
    some (.Function, name, some (extract_signature node lines))
  -- Classes & structs
  else if ks = "class_declaration" ∨ ks = "class_definition" then
    let name := ((find_child_text node "name" lines).orElse
      (fun _ => find_child_text node "identifier" lines)).getD "<anonymous>"
    some (.Class, name, none)
  else if ks = "struct_item" ∨ ks = "struct_declaration" then
    some (.Struct, (find_child_text node "name" lines).getD "<anonymous>", none)
  -- Interfaces & types
  else if ks = "interface_declaration" ∨ ks = "type_alias_declaration" then
    some (.Interface, (find_child_text node "name" lines).getD "<anonymous>", none)
  else if ks = "type_item" then
    some (.TypeAlias, (find_child_text node "name" lines).getD "<anonymous>", none)
  -- Enums
  else if ks = "enum_item" ∨ ks = "enum_declaration" then
    some (.Enum, (find_child_text node "name" lines).getD "<anonymous>", none)
  -- Impl blocks (Rust)
  else if ks = "impl_item" then
    let name := (find_child_text node "type" lines).getD "<impl>"
    some (.Module, "impl " ++ name, none)
  -- Constants and variables
  else if ks = "const_item" ∨ ks = "static_item" then
    some (.Constant, (find_child_text node "name" lines).getD "<const>", none)
  else if ks = "lexical_declaration" ∨ ks = "variable_declaration" then
    some (.Variable, (first_identifier_text node lines).getD "<var>", none)
  -- Imports — collect as a group
  else if ks = "import_statement" ∨ ks = "import_declaration" ∨
      ks = "use_declaration" ∨ ks = "use_item" then
    some (.Import, node_text node lines, none)
  -- Exports
  else if ks = "export_statement" then
    some (.Export, node_text node lines, none)
  -- Module declarations
  else if ks = "mod_item" ∨ ks = "module" then
    some (.Module, (find_child_text node "name" lines).getD "<module>", none)
  -- Haskell: functions and type signatures
  else if ks = "function" ∨ ks = "bind" then
    some (.Function, (find_child_text node "name" lines).getD "<anonymous>",
      some (extract_signature node lines))
  else if ks = "signature" then
    some (.Function, (find_child_text node "name" lines).getD "<anonymous>",
      some (extract_signature node lines))
  -- Haskell: data types
  else if ks = "data_type" then
    some (.Enum, (find_child_text node "name" lines).getD "<anonymous>", none)
  -- Haskell: newtype
  else if ks = "newtype" then
    some (.Struct, (find_child_text node "name" lines).getD "<anonymous>", none)
  -- Haskell: type alias (NOTE: misspelled in grammar as "type_synomym")
  else if ks = "type_synomym" then
    some (.TypeAlias, (find_child_text node "name" lines).getD "<anonymous>", none)
  -- Haskell: type class
  else if ks = "class" then
    some (.Interface, (find_child_text node "name" lines).getD "<anonymous>", none)
  -- Haskell: type class instance
  else if ks = "instance" then
    let class_name := (find_child_text node "name" lines).getD "<instance>"
    let type_name := (find_child_text node "patterns" lines).getD ""
    let display_name := if type_name = "" then class_name
      else class_name ++ " " ++ type_name
    some (.Class, display_name, none)
  -- Haskell: foreign import (nested: foreign_import → signature → name)
  else if ks = "foreign_import" then
    let name := ((child_by_field_name node "signature").bind
      (fun sig => find_child_text sig "name" lines)).getD (node_text node lines)
    some (.Import, name, none)
  -- Haskell: import declaration
  else if ks = "import" then
    some (.Import, node_text node lines, none)
  -- ReScript: let declarations (function or variable)
  else if ks = "let_declaration" then
    let name := (rescript_binding_name node lines).getD "<anonymous>"
    if rescript_let_is_function node then
      some (.Function, name, some (extract_signature node lines))
    else
      some (.Variable, name, none)
  -- ReScript: type declarations (guarded to avoid Go conflicts)
  else if ks = "type_declaration" ∧ lang = Lang.reScript then
    some (.TypeAlias, (rescript_binding_name node lines).getD "<anonymous>", none)
  -- ReScript: module declarations
  else if ks = "module_declaration" then
    some (.Module, (rescript_binding_name node lines).getD "<module>", none)
  -- ReScript: external declarations
  else if ks = "external_declaration" then
    some (.Function, (rescript_binding_name node lines).getD "<external>", none)
  -- ReScript: open statements → imports
  else if ks = "open_statement" then
    some (.Import, (rescript_binding_name node lines).getD (node_text node lines), none)
  -- ReScript: exception declarations
  else if ks = "exception_declaration" then
    some (.Enum, (rescript_binding_name node lines).getD "<exception>", none)
  else none

/-- The `@react.component` decorator-sibling check of `node_to_entry`
(code.rs lines 381-383). -/
def react_decorator_prev (prev : Option Node) (lines : List String) : Bool :=
  match prev with
  | some p =>
    p.kind == "decorator" &&
      containsSub "@react.component".data (node_text p lines).data
  | none => false

mutual

/-- Fuel-indexed body of `node_to_entry` (code.rs line 170).  The Rust
recursion `node_to_entry → collect_children → node_to_entry` is guarded by
`depth < 1` and re-entered at `depth + 1`, so its depth never exceeds two
levels; the fuel makes that bound structural.  `node_to_entry` below enters
with fuel 2, which realizes the Rust function exactly on every input (the
fuel-0 branch is unreachable from the entry points). -/
def nteAux : Nat → Node → Option Node → List String → Lang → Nat →
    Option OutlineEntry
  | 0, _, _, _, _, _ => none
  | fuel + 1, node, prev, lines, lang, depth =>
    match node_kind_triple node lines lang with
    | none => none
    | some (kind, name, signature) =>
      -- Collect children for classes, impls, modules
      let children :=
        if (kind = .Class ∨ kind = .Struct ∨ kind = .Module) ∧ depth < 1 then
          ccAux fuel node lines lang (depth + 1)
        else []
      -- Collect JSX children for @react.component functions
      let children :=
        if lang = Lang.reScript ∧ node.kind = "let_declaration" ∧
            kind = .Function then
          -- Check for @react.component decorator (sibling-based)
          if react_decorator_prev prev lines then
            collect_jsx_children node lines
          else children
        else children
      -- Extract doc comment if present
      let doc := extract_doc prev lines
      some (.mk kind name (node.srow + 1) (node.erow + 1) signature children doc)

/-- Fuel-indexed body of `collect_children` (code.rs line 407): find a
`body`/`block` sub-node (falling back to the node itself) and map its
children through `node_to_entry`, tracking previous siblings. -/
def ccAux : Nat → Node → List String → Lang → Nat → List OutlineEntry
  | 0, _, _, _, _ => []
  | fuel + 1, node, lines, lang, depth =>
    -- Look for a body node first
    let body := node.children.find? (fun c =>
      containsSub "body".data c.kind.data || containsSub "block".data c.kind.data)
    let parent := body.getD node
    (withPrev parent.children).filterMap (fun pc =>
      nteAux fuel pc.1 pc.2 lines lang depth)

end

/-- `node_to_entry` (code.rs line 170): convert a node to an
`OutlineEntry`.  The preceding sibling is an explicit argument (the
embedded nodes carry no parent pointers).  Fuel 5 realizes the Rust
recursion exactly on every argument: any call chain increments `depth` when
it passes through the collector, and once `depth ≥ 1` the `depth < 1` guard
stops the recursion, so at most two rounds of
`nteAux → ccAux → nteAux` occur and fuel 0 is never consumed. -/
def node_to_entry (node : Node) (prev : Option Node) (lines : List String)
    (lang : Lang) (depth : Nat) : Option OutlineEntry :=
  nteAux 5 node prev lines lang depth

/-- `collect_children` (code.rs line 407).  Fuel 4 suffices for the same
reason as in `node_to_entry`. -/
def collect_children (node : Node) (lines : List String) (lang : Lang)
    (depth : Nat) : List OutlineEntry :=
  ccAux 4 node lines lang depth

/-- `walk_top_level` (code.rs line 144): walk the root's direct children in
document order; for Haskell the `declarations`/`imports` wrapper nodes are
transparent. -/
def walk_top_level (root : Node) (lines : List String) (lang : Lang) :
    List OutlineEntry :=
  (withPrev root.children).flatMap (fun pc =>
    -- Haskell wraps declarations in `declarations` and `imports` wrapper nodes
    if lang = Lang.haskell ∧ (pc.1.kind = "declarations" ∨ pc.1.kind = "imports") then
      (withPrev pc.1.children).filterMap (fun inner =>
        node_to_entry inner.1 inner.2 lines lang 0)
    else
      (node_to_entry pc.1 pc.2 lines lang 0).toList)

/-! ### Renderer (code.rs lines 536-733) -/

/-- The fixed kind labels of `format_entry` (code.rs lines 697-713). -/
def kind_label : OutlineKind → String
  | .Function => "fn"
  | .Method => "method"
  | .Class => "class"
  | .Struct => "struct"
  | .Interface => "interface"
  | .TypeAlias => "type"
  | .Enum => "enum"
  | .Constant => "const"
  | .Variable => "let"
  | .Export => "export"
  | .Property => "prop"
  | .Module => "mod"
  | .Import => "import"
  | .TestSuite => "suite"
  | .TestCase => "test"

/-- `format_entry` (code.rs line 689): format a single outline entry with
optional indentation.  `range` is left-padded to width 12 as in the Rust
format string. -/
def format_entry (entry : OutlineEntry) (indent : Nat) : String :=
  let pre : String := ⟨List.replicate (2 * indent) ' '⟩
  let s := entry.start_line
  let e := entry.end_line
  let range : String :=
    if s = e then "[" ++ toString s ++ "]"
    else "[" ++ toString s ++ "-" ++ toString e ++ "]"
  let padded := range ++ (⟨List.replicate (12 - range.length) ' '⟩ : String)
  let sig := match entry.signature with
    | some sg => "\n" ++ pre ++ "           " ++ sg
    | none => ""
  let doc := match entry.doc with
    | some d =>
      let truncated := if d.length > 60 then truncate_str d 57 ++ "..." else d
      "  // " ++ truncated
    | none => ""
  pre ++ padded ++ " " ++ kind_label entry.kind ++ " " ++ entry.name ++ sig ++ doc

/-- `format_imports` (code.rs line 579): a collapsed import summary grouped
by source with counts.  The Rust `seen: HashMap<String, usize>` holds the
occurrence count of each source, and `sources` its first-occurrence order;
both are reproduced here from the mapped source list. -/
def format_imports (imports : List String) (first_entry : Option OutlineEntry) :
    String :=
  let start := (first_entry.map OutlineEntry.start_line).getD 1
  let count := imports.length
  -- Extract source modules and count occurrences
  let srcs := imports.map extract_import_source
  let sources := srcs.foldl
    (fun acc src => if acc.contains src then acc else acc ++ [src]) []
  -- Format as "source(count)" or just "source" if count is 1
  let parts := (sources.take 5).map (fun src =>
    let c := srcs.count src
    if c > 1 then src ++ "(" ++ toString c ++ ")" else src)
  let suffix := if count > 5 then ", ... (" ++ toString count ++ " total)"
    else ""
  let condensed := String.intercalate ", " parts
  "[" ++ toString start ++ "-]   imports: " ++ condensed ++ suffix

/-- The import-flush of `format_entries` (code.rs lines 552-556, 570-572). -/
def flush_imports (out : List String) (import_groups : List String)
    (first : Option OutlineEntry) : List String :=
  if import_groups.isEmpty then out
  else out ++ [format_imports import_groups first]

/-- The direct-children loop of `format_entries` (code.rs lines 561-566),
with its `max_lines` break. -/
def format_children_lines (children : List OutlineEntry) (out : List String)
    (max_lines : Nat) : List String :=
  match children with
  | [] => out
  | child :: rest =>
    if out.length ≥ max_lines then out
    else format_children_lines rest (out ++ [format_entry child 1]) max_lines

/-- The main loop of `format_entries` (code.rs lines 540-572): `out` and
`import_groups` are the loop state; `first` is `entries.first()`, captured
for the import flush. -/
def format_entries_go (first : Option OutlineEntry)
    (entries : List OutlineEntry) (out : List String)
    (import_groups : List String) (max_lines : Nat) : List String :=
  match entries with
  | [] => flush_imports out import_groups first
  | entry :: rest =>
    if out.length ≥ max_lines then
      -- break, then flush trailing imports
      flush_imports out import_groups first
    else if entry.kind = .Import then
      format_entries_go first rest out (import_groups ++ [entry.name]) max_lines
    else
      -- Flush any accumulated imports
      let out := flush_imports out import_groups first
      let out := out ++ [format_entry entry 0]
      let out := format_children_lines entry.children out max_lines
      format_entries_go first rest out [] max_lines

/-- `format_entries` (code.rs line 536): format outline entries into the
output text (lines joined by `\n`). -/
def format_entries (entries : List OutlineEntry) (_lines : List String)
    (max_lines : Nat) : String :=
  String.intercalate "\n" (format_entries_go entries.head? entries [] [] max_lines)

/-! ### Grammar registry, fallback, and the `outline` entry point -/

/-- `outline_language` (code.rs line 46): the closed language→grammar
table.  The tree-sitter grammar objects are external values; the embedding
keeps only the `Some`/`None` structure (which is all `outline` inspects),
tagging `Some` with the language. -/
def outline_language (lang : Lang) : Option Lang :=
  match lang with
  -- Languages without shipped grammars — fall back
  | .swift | .kotlin | .cSharp | .dockerfile | .make => none
  | l => some l

/-- Model of Rust `str::lines`: split on `\n`, dropping a final empty
segment, and stripping one trailing `\r` from each line.  (Rust keeps a
`\r` on a final line that has no newline after it; that corner is
irrelevant to the inputs considered here.) -/
def rustLines (s : String) : List String :=
  if s.data.isEmpty then []
  else
    let segs := splitOnChar '\n' s.data
    let segs := match segs.getLast? with
      | some [] => segs.dropLast
      | _ => segs
    segs.map (fun seg =>
      if seg.getLast? = some '\r' then (⟨seg.dropLast⟩ : String) else ⟨seg⟩)

/-- `head_tail` from `src/read/outline/fallback.rs`.
Modelled from the spec: the fallback module is not under `src/`; the spec
fixes it only as a boundary contract — "head/tail text excerpt" for files
whose language has no grammar (§1, §4.6 of the design notes, glossary).
Modelled as: short content is returned whole, longer content as the first
and last ten lines joined around an elision marker.  The theorems below
never depend on this body, only on `outline` delegating to it. -/
def head_tail (content : String) : String :=
  let ls := rustLines content
  if ls.length ≤ 20 then content
  else String.intercalate "\n"
    (ls.take 10 ++ ["..."] ++ ls.drop (ls.length - 10))

/-- `fallback_outline` (code.rs line 861): fallback when a tree-sitter
grammar is not available. -/
def fallback_outline (content : String) (_max_lines : Nat) : String :=
  head_tail content

/-- Model of Rust `Path::file_stem` composed with `to_str` for the UTF-8
paths used here: the component after the last `/`, minus the extension
after the last non-leading `.`; `none` when that component is empty. -/
def fileStem (p : String) : Option String :=
  let base := ((splitOnChar '/' p.data).getLast?).getD []
  if base.isEmpty then none
  else
    let stem :=
      match afterFirstSub ['.'] base.reverse with
      | some restRev => if restRev.isEmpty then base else restRev.reverse
      | none => base
    some ⟨stem⟩

/-- The entry-level pipeline of `outline` (code.rs lines 22-40): top-level
walk, then the ReScript synthetic module wrap — every `.res` file is
implicitly a module named after the file, so searching "Button" finds
`Button.res`. -/
def outline_entries (root : Node) (lines : List String) (lang : Lang)
    (path : Option String) : List OutlineEntry :=
  let entries := walk_top_level root lines lang
  if lang = Lang.reScript then
    match path.bind fileStem with
    | some stem =>
      let end_line := ((entries.getLast?).map OutlineEntry.end_line).getD 0
      [OutlineEntry.mk .Module stem 1 end_line none entries none]
    | none => entries
  else entries

/-- `outline` (code.rs line 6): generate a code outline.  Tree-sitter is
external to the repository, so the embedded function takes the parser
behaviour as explicit oracles: `set_lang_ok` models
`parser.set_language(&language)` succeeding, and `parsed` models
`parser.parse(content, None)` (`none` on parse failure). -/
def outline (set_lang_ok : Bool) (parsed : Option Node) (content : String)
    (lang : Lang) (max_lines : Nat) (path : Option String) : String :=
  match outline_language lang with
  | none => fallback_outline content max_lines
  | some _ =>
    if set_lang_ok = false then fallback_outline content max_lines
    else
      match parsed with
      | none => fallback_outline content max_lines
      | some root =>
        let lines := rustLines content
        format_entries (outline_entries root lines lang path) lines max_lines

/-! ### Claim-side specification functions

These are written from the words of the spec sentences under scrutiny (not
from the source) and are compared with the embedded source functions by the
refinement theorems below. -/

/-- Signature extraction as worded by the spec (§4.3 / claim C7), as a
function of the already-trimmed source line at the node's start row:
truncate before the first opening brace when the line contains one
(dropping whitespace left dangling by the cut); otherwise truncate before
the trailing colon when the line ends with one; otherwise truncate a line
of more than 120 characters to 120 characters total, the last three being
an ellipsis; otherwise return the line unchanged. -/
def signature_spec (trimmedLine : List Char) : String :=
  if trimmedLine.contains '\x7b' then
    ⟨trimChars (trimmedLine.takeWhile (fun c => c ≠ '\x7b'))⟩
  else if trimmedLine.getLast? = some ':' then
    ⟨trimChars trimmedLine.dropLast⟩
  else if trimmedLine.length > 120 then
    ⟨trimmedLine.take 117⟩ ++ "..."
  else ⟨trimmedLine⟩

/-- The flushed-imports line as worded by the amended claim C8: one line
listing the distinct extracted sources in first-occurrence order
(`eraseDups`), at most five of them, each with a parenthesized count
exactly when its source occurs at least twice among the buffered imports;
when the number of buffered import entries exceeds five, the suffix
`, ... (N total)` with `N` that entry count. -/
def format_imports_spec (imports : List String)
    (first_entry : Option OutlineEntry) : String :=
  let start := (first_entry.map OutlineEntry.start_line).getD 1
  let srcs := imports.map extract_import_source
  let parts := (srcs.eraseDups.take 5).map (fun src =>
    if 2 ≤ srcs.count src then src ++ "(" ++ toString (srcs.count src) ++ ")"
    else src)
  let suffix := if 5 < imports.length then
    ", ... (" ++ toString imports.length ++ " total)" else ""
  "[" ++ toString start ++ "-]   imports: " ++
    String.intercalate ", " parts ++ suffix

/-- Drop an entry's children (keeping every rendered field). -/
def clear_children : OutlineEntry → OutlineEntry
  | .mk k n s e sg _ d => .mk k n s e sg [] d

/-- Drop an entry's grandchildren: each direct child keeps its rendered
fields but loses its own children. -/
def erase_grandchildren : OutlineEntry → OutlineEntry
  | .mk k n s e sg cs d => .mk k n s e sg (cs.map clear_children) d

end Tilth

namespace Tilth

/-! ## Claim theorems -/

/-- C3: `extract_import_source` maps each leading form of the spec table to
its source, in the stated rule order: `use std::fs;` yields `std::fs`;
`import React from "react"` yields `react` (the presence of a " from "
substring routes the text to the JS/TS rule rather than the Haskell rule);
`import qualified Data.Text as T` yields `Data.Text` (the Haskell rule
applies before the generic import rule, which would have produced
`qualified`); `from collections import X` yields `collections`;
`open Belt` yields `Belt`. -/
theorem c3_extract_import_source_table :
    extract_import_source "use std::fs;" = "std::fs" ∧
    extract_import_source "import React from \"react\"" = "react" ∧
    extract_import_source "import qualified Data.Text as T" = "Data.Text" ∧
    extract_import_source "from collections import X" = "collections" ∧
    extract_import_source "open Belt" = "Belt" := by
  decide

/-- C2: whenever the grammar is unavailable for the language, the parser
rejects the grammar, or the parse fails, `outline` returns the fallback
head/tail excerpt.  (Totality and determinism hold by construction: the
embedded `outline` is a pure total function of its arguments, mirroring the
straight-line Rust source, which returns a `String` on every path.) -/
theorem c2_outline_fallback_on_failure (set_lang_ok : Bool)
    (parsed : Option Node) (content : String) (lang : Lang) (max_lines : Nat)
    (path : Option String)
    (h : outline_language lang = none ∨ set_lang_ok = false ∨ parsed = none) :
    outline set_lang_ok parsed content lang max_lines path =
      fallback_outline content max_lines := by
  rcases h with h | h | h
  · simp [outline, h]
  · subst h
    cases hl : outline_language lang <;> simp [outline, hl]
  · subst h
    cases hl : outline_language lang <;> cases set_lang_ok <;> simp [outline, hl]

/-- C2 witness: the fallback equation instantiated at a concrete failing
parse of Rust content. -/
theorem c2_witness :
    outline true none "fn main() \x7b\x7d" Lang.rust 40 none =
      fallback_outline "fn main() \x7b\x7d" 40 :=
  c2_outline_fallback_on_failure true none "fn main() \x7b\x7d" Lang.rust 40 none
    (Or.inr (Or.inr rfl))

/-- C6: for every language tag without a bundled grammar (Swift, Kotlin,
C#, Dockerfile, Makefile) and every content, parser oracle, `max_lines` and
path, `outline` returns exactly the fallback head/tail excerpt
`head_tail content` — silently, with no error value involved. -/
theorem c6_no_grammar_fallback (set_lang_ok : Bool) (parsed : Option Node)
    (content : String) (lang : Lang) (max_lines : Nat) (path : Option String)
    (h : lang = Lang.swift ∨ lang = Lang.kotlin ∨ lang = Lang.cSharp ∨
      lang = Lang.dockerfile ∨ lang = Lang.make) :
    outline set_lang_ok parsed content lang max_lines path =
      head_tail content := by
  rcases h with h | h | h | h | h <;> subst h <;> rfl

/-- C6 witness: a Swift buffer degrades to the fallback excerpt. -/
theorem c6_witness :
    outline true none "func greet() -> String" Lang.swift 40 none =
      head_tail "func greet() -> String" :=
  c6_no_grammar_fallback true none "func greet() -> String" Lang.swift 40 none
    (Or.inl rfl)

/-- C5 evidence (code bug): at the failing input — empty content, language
ReScript, a path with stem `Button` — `outline` does not return the empty
string the spec promises for empty input; the unconditional synthetic
module wrap emits a `mod Button` line whose range `[1-0]` also violates the
spec invariant `start_line ≤ end_line`.  The parse oracle is the empty root
node tree-sitter produces for empty input. -/
theorem c5_code_eval :
    outline true (some (Node.mk "source_file" none 0 0 0 0 [])) ""
        Lang.reScript 10 (some "Button.res") = "[1-0]        mod Button" ∧
    outline true (some (Node.mk "source_file" none 0 0 0 0 [])) ""
        Lang.reScript 10 (some "Button.res") ≠ "" := by
  constructor
  · rfl
  · decide

/-- C9 counterexample: `extract_import_source` is not idempotent on its own
output.  On the import text `#include "my file.h"` the first application
returns the quoted file name (whitespace included), and the second
application falls through to the last-token fallback, returning a different
string. -/
theorem c9_counterexample :
    extract_import_source "#include \"my file.h\"" = "\"my file.h\"" ∧
    extract_import_source (extract_import_source "#include \"my file.h\"") =
      "file.h\"" ∧
    extract_import_source (extract_import_source "#include \"my file.h\"") ≠
      extract_import_source "#include \"my file.h\"" := by
  refine ⟨by decide, by decide, by decide⟩

/-- Six adjacent import entries sharing one source, for the C8
counterexample. -/
def sixBeltImports : List OutlineEntry :=
  List.replicate 6 (OutlineEntry.mk .Import "open Belt" 1 1 none [] none)

/-- C8 counterexample: a buffered run of six imports of one single distinct
source.  Only one source is listed (well below the five-source display
cap), yet the rendered line still carries the `, ... (6 total)` suffix:
the code appends the suffix when the number of buffered import entries
exceeds five, not when more than five sources would have to be shown as the
claim states. -/
theorem c8_counterexample :
    ((sixBeltImports.map (fun e => extract_import_source e.name)).eraseDups).length = 1 ∧
    format_entries sixBeltImports [] 100 =
      "[1-]   imports: Belt(6), ... (6 total)" := by
  refine ⟨by decide, by decide⟩

/-- C1: for a ReScript parse whose top-level walk yields at least one
entry, and a file path whose stem is defined, the entry sequence produced
by the outline pipeline is a single synthetic Module entry whose name is
the file stem and whose children are the original top-level entries. -/
theorem c1_rescript_synthetic_module (root : Node) (lines : List String)
    (path stem : String) (h : fileStem path = some stem)
    (hne : walk_top_level root lines Lang.reScript ≠ []) :
    ∃ e, outline_entries root lines Lang.reScript (some path) = [e] ∧
      e.kind = .Module ∧ e.name = stem ∧
      e.children = walk_top_level root lines Lang.reScript := by
  refine ⟨OutlineEntry.mk .Module stem 1
    (((walk_top_level root lines Lang.reScript).getLast?.map
      OutlineEntry.end_line).getD 0)
    none (walk_top_level root lines Lang.reScript) none, ?_, rfl, rfl, rfl⟩
  unfold outline_entries
  simp [h]

/-! Concrete ReScript component tree used by the C1 and C4 witnesses.  It
embeds the parse of

```
@react.component
let make = () => 1
```

with the node positions the grammar assigns. -/

def cLines : List String := ["@react.component", "let make = () => 1"]

def cPattern : Node := Node.mk "value_identifier" (some "pattern") 1 4 1 8 []

def cBody : Node := Node.mk "arrow_function" (some "body") 1 11 1 18 []

def cBinding : Node := Node.mk "let_binding" none 1 4 1 18 [cPattern, cBody]

def cDecorator : Node := Node.mk "decorator" none 0 0 0 16 []

def cLet : Node := Node.mk "let_declaration" none 1 0 1 18 [cBinding]

def cRoot : Node := Node.mk "source_file" none 0 0 1 18 [cDecorator, cLet]

def cEntry : OutlineEntry :=
  OutlineEntry.mk .Function "make" 2 2 (some "let make = () => 1") [] none

/-- C1 witness: the synthetic-module wrap at the concrete component tree
with path `Button.res`. -/
theorem c1_witness :
    fileStem "Button.res" = some "Button" ∧
    walk_top_level cRoot cLines Lang.reScript ≠ [] ∧
    ∃ e, outline_entries cRoot cLines Lang.reScript (some "Button.res") = [e] ∧
      e.kind = .Module ∧ e.name = "Button" ∧
      e.children = walk_top_level cRoot cLines Lang.reScript := by
  have hwalk : walk_top_level cRoot cLines Lang.reScript = [cEntry] := rfl
  have hne : walk_top_level cRoot cLines Lang.reScript ≠ [] := by
    rw [hwalk]; exact List.cons_ne_nil _ _
  exact ⟨by decide, hne,
    c1_rescript_synthetic_module cRoot cLines "Button.res" "Button" (by decide) hne⟩

/-- One-step unfolding of `nteAux` at successor fuel (definitional). -/
theorem nteAux_succ (fuel : Nat) (node : Node) (prev : Option Node)
    (lines : List String) (lang : Lang) (depth : Nat) :
    nteAux (fuel + 1) node prev lines lang depth =
      match node_kind_triple node lines lang with
      | none => none
      | some (kind, name, signature) =>
        let children :=
          if (kind = .Class ∨ kind = .Struct ∨ kind = .Module) ∧ depth < 1 then
            ccAux fuel node lines lang (depth + 1)
          else []
        let children :=
          if lang = Lang.reScript ∧ node.kind = "let_declaration" ∧
              kind = .Function then
            if react_decorator_prev prev lines then
              collect_jsx_children node lines
            else children
          else children
        let doc := extract_doc prev lines
        some (.mk kind name (node.srow + 1) (node.erow + 1) signature
          children doc) := rfl

/-- C4: an entry produced by `node_to_entry` carries the JSX subtree as its
children exactly when the language is ReScript, the node is a
`let_declaration`, the resulting kind is Function, and the immediately
preceding sibling is a `decorator` whose text contains `@react.component`;
in every other case (any other decorator, node kind, resulting kind or
language) the children are the unchanged base children: the container
collection for a depth-0 Class/Struct/Module entry, and empty otherwise. -/
theorem c4_jsx_children_characterization (node : Node) (prev : Option Node)
    (lines : List String) (lang : Lang) (depth : Nat) (entry : OutlineEntry)
    (h : node_to_entry node prev lines lang depth = some entry) :
    entry.children =
      if (lang = Lang.reScript ∧ node.kind = "let_declaration" ∧
          entry.kind = .Function) ∧
          react_decorator_prev prev lines = true then
        collect_jsx_children node lines
      else if (entry.kind = .Class ∨ entry.kind = .Struct ∨
          entry.kind = .Module) ∧ depth < 1 then
        collect_children node lines lang (depth + 1)
      else [] := by
  unfold node_to_entry at h
  rw [show (5 : Nat) = 4 + 1 from rfl, nteAux_succ] at h
  cases htrip : node_kind_triple node lines lang with
  | none => rw [htrip] at h; exact absurd h (by simp)
  | some t =>
    obtain ⟨k, n, sg⟩ := t
    rw [htrip] at h
    simp only [] at h
    obtain rfl : OutlineEntry.mk k n (node.srow + 1) (node.erow + 1) sg
        (if lang = Lang.reScript ∧ node.kind = "let_declaration" ∧
            k = .Function then
          if react_decorator_prev prev lines then
            collect_jsx_children node lines
          else
            if (k = .Class ∨ k = .Struct ∨ k = .Module) ∧ depth < 1 then
              ccAux 4 node lines lang (depth + 1)
            else []
        else
          if (k = .Class ∨ k = .Struct ∨ k = .Module) ∧ depth < 1 then
            ccAux 4 node lines lang (depth + 1)
          else [])
        (extract_doc prev lines) = entry := Option.some.inj h
    simp only [OutlineEntry.children, OutlineEntry.kind, collect_children]
    by_cases hP : lang = Lang.reScript ∧ node.kind = "let_declaration" ∧
      k = OutlineKind.Function
    · by_cases hR : react_decorator_prev prev lines
      · simp [hP, hR]
      · have hk : k = OutlineKind.Function := hP.2.2
        simp [hP, hR, hk]
    · simp [hP]

/-- C4 witness: the characterization instantiated at the concrete decorated
component tree, where the decorator sibling carries `@react.component`. -/
theorem c4_witness :
    cEntry.children =
      if (Lang.reScript = Lang.reScript ∧ cLet.kind = "let_declaration" ∧
          cEntry.kind = .Function) ∧
          react_decorator_prev (some cDecorator) cLines = true then
        collect_jsx_children cLet cLines
      else if (cEntry.kind = .Class ∨ cEntry.kind = .Struct ∨
          cEntry.kind = .Module) ∧ 0 < 1 then
        collect_children cLet cLines Lang.reScript (0 + 1)
      else [] :=
  c4_jsx_children_characterization cLet (some cDecorator) cLines Lang.reScript
    0 cEntry rfl

/-- C7: on every node whose start row has a source line, `extract_signature`
computes exactly the claim formula `signature_spec` on the trimmed line:
truncate before the first opening brace; otherwise before a trailing colon;
otherwise truncate past 120 characters with a trailing ellipsis; otherwise
the trimmed line unchanged. -/
theorem c7_extract_signature_spec (node : Node) (lines : List String)
    (line : String) (h : lines[node.srow]? = some line) :
    extract_signature node lines = signature_spec (trimChars line.data) := by
  simp only [extract_signature, h, signature_spec, takeBeforeBrace,
    List.dropLast_eq_take, truncate_str]

/-- C7 witness: a Rust function line with an opening brace. -/
theorem c7_witness :
    (["fn foo(x: u32) -> u32 \x7b", "  x", "\x7d"] : List String)[(Node.mk
      "function_item" none 0 0 2 1 []).srow]? = some "fn foo(x: u32) -> u32 \x7b" ∧
    extract_signature (Node.mk "function_item" none 0 0 2 1 [])
        ["fn foo(x: u32) -> u32 \x7b", "  x", "\x7d"] =
      signature_spec (trimChars "fn foo(x: u32) -> u32 \x7b".data) :=
  ⟨rfl, c7_extract_signature_spec (Node.mk "function_item" none 0 0 2 1 [])
    ["fn foo(x: u32) -> u32 \x7b", "  x", "\x7d"] "fn foo(x: u32) -> u32 \x7b" rfl⟩

/-! Helper lemmas about the character-list primitives, used to settle the
amended idempotence claim. -/

theorem stripPrefixChars_some {p : List Char} :
    ∀ {s r : List Char}, stripPrefixChars p s = some r → s = p ++ r := by
  induction p with
  | nil =>
    intro s r h
    simp only [stripPrefixChars, Option.some.injEq] at h
    simp [h]
  | cons c cs ih =>
    intro s r h
    cases s with
    | nil => simp [stripPrefixChars] at h
    | cons a t =>
      simp only [stripPrefixChars] at h
      by_cases hca : c = a
      · rw [if_pos hca] at h
        subst hca
        simpa using ih h
      · rw [if_neg hca] at h
        exact absurd h (by simp)

theorem trimChars_eq_self {s : List Char} (h : ∀ c ∈ s, isWs c = false) :
    trimChars s = s := by
  have h1 : s.dropWhile isWs = s := by
    cases s with
    | nil => rfl
    | cons a t => simp [List.dropWhile_cons, h a (List.mem_cons_self a t)]
  have h2 : s.reverse.dropWhile isWs = s.reverse := by
    cases hs : s.reverse with
    | nil => rfl
    | cons a t =>
      have ha : a ∈ s := List.mem_reverse.mp (hs ▸ List.mem_cons_self a t)
      simp [List.dropWhile_cons, h a ha]
  unfold trimChars
  rw [h1, h2, List.reverse_reverse]

theorem trimEndSemis_eq_self {s : List Char} (h : s.getLast? ≠ some ';') :
    trimEndSemis s = s := by
  unfold trimEndSemis
  cases hs : s.reverse with
  | nil =>
    have : s = [] := by simpa using congrArg List.reverse hs.symm
    simp [this]
  | cons a t =>
    have ha : s.getLast? = some a := by rw [← List.head?_reverse, hs]; rfl
    have hne : ¬ (a = ';') := fun hEq => h (hEq ▸ ha)
    rw [List.dropWhile_cons]
    simp only [decide_eq_true_eq, hne, if_false, ite_false]
    rw [← hs, List.reverse_reverse]

theorem takeWhile_all {p : Char → Bool} {l : List Char}
    (h : ∀ c ∈ l, p c = true) : l.takeWhile p = l := by
  induction l with
  | nil => rfl
  | cons a t ih =>
    rw [List.takeWhile_cons, h a (List.mem_cons_self a t)]
    simp only [if_true, ite_true, List.cons.injEq, true_and]
    exact ih (fun c hc => h c (List.mem_cons_of_mem a hc))

theorem lastTokenOpt_noWs {s : List Char} (h : ∀ c ∈ s, isWs c = false) :
    (lastTokenOpt s).getD s = s := by
  cases s with
  | nil => rfl
  | cons a t =>
    have h2 : (a :: t).reverse.dropWhile isWs = (a :: t).reverse := by
      cases hs : (a :: t).reverse with
      | nil => rfl
      | cons b u =>
        have hb : b ∈ a :: t := List.mem_reverse.mp (hs ▸ List.mem_cons_self b u)
        simp [List.dropWhile_cons, h b hb]
    have hne : ((a :: t).reverse.isEmpty) = false := by
      cases hs : (a :: t).reverse with
      | nil => exact absurd hs (by simp)
      | cons b u => rfl
    have htw : (a :: t).reverse.takeWhile (fun c => !isWs c) = (a :: t).reverse :=
      takeWhile_all (fun c hc => by rw [h c (List.mem_reverse.mp hc)]; rfl)
    simp only [lastTokenOpt, h2, hne, htw, Bool.false_eq_true, if_false,
      ite_false, List.reverse_reverse, Option.getD_some]

theorem stripPrefix_none_of_space {pre s : List Char}
    (hs : ∀ c ∈ s, isWs c = false) (hpre : ' ' ∈ pre) :
    stripPrefixChars pre s = none := by
  cases h : stripPrefixChars pre s with
  | none => rfl
  | some r =>
    have hsr := stripPrefixChars_some h
    have hmem : (' ' : Char) ∈ s := by
      rw [hsr]; exact List.mem_append_left r hpre
    exact absurd (hs ' ' hmem) (by decide)

theorem stripPrefix_none_of_not_prefix {p s : List Char}
    (h : isPrefixOfChars p s = false) : stripPrefixChars p s = none := by
  unfold isPrefixOfChars at h
  cases hc : stripPrefixChars p s with
  | none => rfl
  | some r => rw [hc] at h; simp at h

/-- The amended idempotence core: `extractImportSourceChars` fixes every
string that contains no whitespace, does not start with `import` or
`#include`, and does not end with `;`. -/
theorem eisChars_fixed {s : List Char}
    (hws : ∀ c ∈ s, isWs c = false)
    (him : isPrefixOfChars "import".data s = false)
    (hinc : isPrefixOfChars "#include".data s = false)
    (hsemi : s.getLast? ≠ some ';') :
    extractImportSourceChars s = s := by
  have htrim : trimEndSemis (trimChars s) = s := by
    rw [trimChars_eq_self hws, trimEndSemis_eq_self hsemi]
  have hu : stripPrefixChars "use ".data s = none :=
    stripPrefix_none_of_space hws (by decide)
  have ho : stripPrefixChars "open ".data s = none :=
    stripPrefix_none_of_space hws (by decide)
  have hf : stripPrefixChars "from ".data s = none :=
    stripPrefix_none_of_space hws (by decide)
  have hi : stripPrefixChars "import ".data s = none :=
    stripPrefix_none_of_space hws (by decide)
  have hic : stripPrefixChars "#include".data s = none :=
    stripPrefix_none_of_not_prefix hinc
  have hlast : (lastTokenOpt s).getD s = s := lastTokenOpt_noWs hws
  simp only [extractImportSourceChars, htrim, hu, ho, hf, hi, him, hic, hlast,
    Bool.false_eq_true, if_false, ite_false]

/-- C9 (amended): `extract_import_source` is idempotent on every output
that contains no whitespace, does not start with `import` or `#include`,
and does not end with `;` — which covers all the extracted sources of the
spec table.  (The unrestricted claim fails; see the counterexample.) -/
theorem c9_amended_idempotent (x : String)
    (hws : ∀ c ∈ (extract_import_source x).data, isWs c = false)
    (him : isPrefixOfChars "import".data (extract_import_source x).data = false)
    (hinc : isPrefixOfChars "#include".data (extract_import_source x).data = false)
    (hsemi : (extract_import_source x).data.getLast? ≠ some ';') :
    extract_import_source (extract_import_source x) =
      extract_import_source x := by
  show (⟨extractImportSourceChars (extract_import_source x).data⟩ : String) = _
  rw [eisChars_fixed hws him hinc hsemi]

/-- C9 witness: idempotence at the spec-table input `open Belt`, whose
extracted source `Belt` satisfies every side condition. -/
theorem c9_witness :
    (∀ c ∈ (extract_import_source "open Belt").data, isWs c = false) ∧
    isPrefixOfChars "import".data (extract_import_source "open Belt").data
      = false ∧
    isPrefixOfChars "#include".data (extract_import_source "open Belt").data
      = false ∧
    (extract_import_source "open Belt").data.getLast? ≠ some ';' ∧
    extract_import_source (extract_import_source "open Belt") =
      extract_import_source "open Belt" :=
  ⟨by decide, by decide, by decide, by decide,
    c9_amended_idempotent "open Belt" (by decide) (by decide) (by decide)
      (by decide)⟩

/-! Helper lemmas for the renderer claims. -/

theorem contains_reverse (l : List String) (a : String) :
    l.reverse.contains a = l.contains a := by
  rw [Bool.eq_iff_iff]
  simp only [List.contains, List.elem_iff, List.mem_reverse]

theorem foldl_dedup_loop (l : List String) :
    ∀ bs : List String,
      l.foldl (fun acc src => if acc.contains src then acc else acc ++ [src])
        bs.reverse = List.eraseDups.loop l bs := by
  induction l with
  | nil => intro bs; rfl
  | cons a t ih =>
    intro bs
    rw [List.foldl_cons]
    cases helem : List.elem a bs with
    | true =>
      have hcr : bs.reverse.contains a = true := by
        rw [contains_reverse]; exact helem
      simp only [List.eraseDups.loop, helem, hcr, if_true, ite_true]
      exact ih bs
    | false =>
      have hcr : bs.reverse.contains a = false := by
        rw [contains_reverse]; exact helem
      simp only [List.eraseDups.loop, helem, hcr, Bool.false_eq_true, if_false,
        ite_false]
      rw [← List.reverse_cons]
      exact ih (a :: bs)

theorem foldl_dedup_eq_eraseDups (l : List String) :
    l.foldl (fun acc src => if acc.contains src then acc else acc ++ [src]) []
      = l.eraseDups := by
  have h := foldl_dedup_loop l []
  simpa [List.eraseDups] using h

theorem intercalate_single (x : String) : String.intercalate "\n" [x] = x := rfl

theorem intercalate_pair (x y : String) :
    String.intercalate "\n" [x, y] = x ++ "\n" ++ y := rfl

theorem formatEntriesGo_allImports (first : Option OutlineEntry)
    (ml : Nat) (l : List OutlineEntry) :
    ∀ gs : List String, 1 ≤ ml → (∀ e ∈ l, e.kind = .Import) →
      format_entries_go first l [] gs ml =
        flush_imports [] (gs ++ l.map OutlineEntry.name) first := by
  induction l with
  | nil => intro gs _ _; simp [format_entries_go]
  | cons e t ih =>
    intro gs hml hall
    have hk : e.kind = .Import := hall e (List.mem_cons_self e t)
    have h0 : ¬ ((List.length ([] : List String)) ≥ ml) := by
      simp only [List.length_nil]; omega
    simp only [format_entries_go, h0, if_false, hk, if_true, ite_true, ite_false]
    rw [ih (gs ++ [e.name]) hml (fun x hx => hall x (List.mem_cons_of_mem e hx))]
    simp [List.append_assoc]

theorem formatEntriesGo_imports_then (first : Option OutlineEntry)
    (ml : Nat) (e : OutlineEntry) (he : ¬ e.kind = .Import)
    (hch : e.children = []) (hml : 1 ≤ ml) (l : List OutlineEntry) :
    ∀ gs : List String, (∀ i ∈ l, i.kind = .Import) →
      ¬ (gs ++ l.map OutlineEntry.name) = [] →
      format_entries_go first (l ++ [e]) [] gs ml =
        [format_imports (gs ++ l.map OutlineEntry.name) first,
          format_entry e 0] := by
  induction l with
  | nil =>
    intro gs _ hne
    have h0 : ¬ ((List.length ([] : List String)) ≥ ml) := by
      simp only [List.length_nil]; omega
    simp only [List.nil_append, format_entries_go, h0, if_false, he, ite_false,
      hch, format_children_lines]
    have hgs : gs.isEmpty = false := by
      cases gs with
      | nil => simp at hne
      | cons g u => rfl
    simp only [flush_imports, hgs, Bool.false_eq_true, if_false, ite_false,
      List.nil_append, format_entries_go]
    simp [List.map_nil, List.append_nil]
  | cons i t ih =>
    intro gs hall hne
    have hk : i.kind = .Import := hall i (List.mem_cons_self i t)
    have h0 : ¬ ((List.length ([] : List String)) ≥ ml) := by
      simp only [List.length_nil]; omega
    rw [List.cons_append]
    simp only [format_entries_go, h0, if_false, hk, if_true, ite_true,
      ite_false]
    have hne2 : ¬ ((gs ++ [i.name]) ++ t.map OutlineEntry.name) = [] := by
      simp
    rw [ih (gs ++ [i.name]) (fun x hx => hall x (List.mem_cons_of_mem i hx)) hne2]
    simp [List.append_assoc]

/-- C8 (amended): adjacent buffered imports are flushed, on the first
non-import entry or at end of stream, as a single line that lists the
distinct extracted sources in first-occurrence order, at most five of them,
each with a parenthesized count exactly when its source occurs at least
twice; the `, ... (N total)` suffix is appended when the number of
buffered import entries — not of distinct sources — exceeds five, with
`N` that entry count.  Conjunct one is the line format (`format_imports` equals the
amended specification); conjunct two is the end-of-stream flush; conjunct
three is the flush on the first non-import entry. -/
theorem c8_amended :
    (∀ (imports : List String) (first_entry : Option OutlineEntry),
      format_imports imports first_entry =
        format_imports_spec imports first_entry) ∧
    (∀ (entries : List OutlineEntry) (lines : List String) (max_lines : Nat),
      0 < entries.length → (∀ e ∈ entries, e.kind = .Import) →
      1 ≤ max_lines →
      format_entries entries lines max_lines =
        format_imports (entries.map OutlineEntry.name) entries.head?) ∧
    (∀ (imps : List OutlineEntry) (e : OutlineEntry) (lines : List String)
        (max_lines : Nat),
      0 < imps.length → (∀ i ∈ imps, i.kind = .Import) →
      ¬ e.kind = .Import → e.children = [] → 1 ≤ max_lines →
      format_entries (imps ++ [e]) lines max_lines =
        format_imports (imps.map OutlineEntry.name) (imps ++ [e]).head? ++
          "\n" ++ format_entry e 0) := by
  refine ⟨?_, ?_, ?_⟩
  · intro imports first_entry
    simp only [format_imports, format_imports_spec, foldl_dedup_eq_eraseDups]
    rfl
  · intro entries lines ml h0 hall hml
    obtain ⟨e, t, rfl⟩ : ∃ e t, entries = e :: t := by
      cases entries with
      | nil => simp at h0
      | cons e t => exact ⟨e, t, rfl⟩
    unfold format_entries
    rw [formatEntriesGo_allImports (e :: t).head? ml (e :: t) [] hml hall]
    have hmap : (((e :: t).map OutlineEntry.name).isEmpty) = false := rfl
    simp only [List.nil_append, flush_imports, hmap, Bool.false_eq_true,
      if_false, ite_false]
    exact intercalate_single _
  · intro imps e lines ml h0 hall he hch hml
    obtain ⟨i, t, rfl⟩ : ∃ i t, imps = i :: t := by
      cases imps with
      | nil => simp at h0
      | cons i t => exact ⟨i, t, rfl⟩
    unfold format_entries
    rw [formatEntriesGo_imports_then ((i :: t) ++ [e]).head? ml e he hch hml
      (i :: t) [] hall (by simp)]
    simp only [List.nil_append]
    exact intercalate_pair _ _

/-- C8 witness: the end-of-stream flush applied to the six-import buffer of
the counterexample. -/
theorem c8_witness :
    0 < sixBeltImports.length ∧
    (∀ e ∈ sixBeltImports, e.kind = .Import) ∧
    (1 : Nat) ≤ 100 ∧
    format_entries sixBeltImports [] 100 =
      format_imports (sixBeltImports.map OutlineEntry.name)
        sixBeltImports.head? :=
  ⟨by decide, by decide, by decide,
    c8_amended.2.1 sixBeltImports [] 100 (by decide) (by decide) (by decide)⟩

/-! Helper lemmas for C10: the renderer reads nothing below an entry and
its direct children. -/

theorem format_entry_clear (c : OutlineEntry) (i : Nat) :
    format_entry (clear_children c) i = format_entry c i := by
  cases c; rfl

theorem format_entry_erase (e : OutlineEntry) (i : Nat) :
    format_entry (erase_grandchildren e) i = format_entry e i := by
  cases e; rfl

theorem erase_grandchildren_kind (e : OutlineEntry) :
    (erase_grandchildren e).kind = e.kind := by
  cases e; rfl

theorem erase_grandchildren_name (e : OutlineEntry) :
    (erase_grandchildren e).name = e.name := by
  cases e; rfl

theorem erase_grandchildren_children (e : OutlineEntry) :
    (erase_grandchildren e).children = e.children.map clear_children := by
  cases e; rfl

theorem format_imports_map_erase (gs : List String) (f : Option OutlineEntry) :
    format_imports gs (f.map erase_grandchildren) = format_imports gs f := by
  cases f with
  | none => rfl
  | some e => cases e; rfl

theorem flush_imports_map_erase (out gs : List String)
    (f : Option OutlineEntry) :
    flush_imports out gs (f.map erase_grandchildren) =
      flush_imports out gs f := by
  unfold flush_imports
  rw [format_imports_map_erase]

theorem format_children_lines_clear (cs : List OutlineEntry) :
    ∀ (out : List String) (ml : Nat),
      format_children_lines (cs.map clear_children) out ml =
        format_children_lines cs out ml := by
  induction cs with
  | nil => intro out ml; rfl
  | cons c t ih =>
    intro out ml
    simp only [List.map_cons, format_children_lines, format_entry_clear]
    by_cases hl : out.length ≥ ml
    · simp [hl]
    · simp [hl, ih]

theorem format_entries_go_erase (f : Option OutlineEntry) (ml : Nat)
    (l : List OutlineEntry) :
    ∀ (out gs : List String),
      format_entries_go (f.map erase_grandchildren)
        (l.map erase_grandchildren) out gs ml =
        format_entries_go f l out gs ml := by
  induction l with
  | nil =>
    intro out gs
    simp only [List.map_nil, format_entries_go, flush_imports_map_erase]
  | cons e t ih =>
    intro out gs
    simp only [List.map_cons, format_entries_go, erase_grandchildren_kind,
      erase_grandchildren_name, erase_grandchildren_children,
      format_entry_erase, flush_imports_map_erase,
      format_children_lines_clear]
    by_cases hl : out.length ≥ ml
    · simp [hl]
    · by_cases hk : e.kind = .Import
      · simp [hl, hk, ih]
      · simp [hl, hk, ih]

/-- C10: the rendered outline contains lines only for the top-level entries
and their direct children: erasing every grandchild from the entry tree
(each direct child keeps its rendered fields but loses its own children)
leaves the output string unchanged for every entry list and `max_lines`, so
grandchildren — for example JSX entries nested below the first level of a
component subtree — never appear anywhere in the output. -/
theorem c10_grandchildren_never_rendered (entries : List OutlineEntry)
    (lines : List String) (max_lines : Nat) :
    format_entries (entries.map erase_grandchildren) lines max_lines =
      format_entries entries lines max_lines := by
  unfold format_entries
  rw [List.head?_map]
  rw [format_entries_go_erase entries.head? max_lines entries [] []]

end Tilth
